import Mathlib

/-!
Shallow embedding of `torchgpipe/skip/skippable.py`: the skip-connection
stage-wrapping and command-dispatch protocol.

Modelling choices, faithful to the source:
* Python `dict` is modelled by `Dict`, an association list with Python
  insertion semantics: assignment to an existing key updates it in place,
  assignment to a fresh key appends; `dict.pop` removes the entry.
* A generator-style stage body is modelled by the inductive `Gen`: it either
  returns an output, or yields an object and continues with the value sent
  back by the dispatcher (`none` after a stash, the popped value after a pop).
* Tensors, namespaces and input/output payloads are type parameters `T`,
  `N`, `B`; `Optional[Tensor]` is `Option T`, and an un-isolated name maps to
  namespace `none` (Python `None`, from `dict.get` returning `None`).
* Python exceptions raised by the protocol are the inductive `SkipError`
  threaded through `Except`.  The `RuntimeError` messages enumerating names
  are modelled by the error constructor carrying the list of names it would
  print; the `KeyError` of `skips_to_pop.pop(name)` is `missingPop`.
* `forward` returns the result paired with the list of `skip_tracker.save`
  calls it performed, in order; an aborted invocation performs none, since
  the save loop is the last step after all checks.
* The external tracker (`current_skip_tracker().load`) is a caller-supplied
  function from namespaced names to optional values; `Batch` wrapping is
  identity at this interface.
-/

namespace SkipEmb

/-- Association list with Python dict semantics. -/
def Dict (α : Type) : Type := List (String × α)

def Dict.get? {α : Type} : Dict α → String → Option α
  | [], _ => none
  | (k, v) :: d, n => if k = n then some v else Dict.get? d n

/-- Python `d[n] = v`: update an existing key in place, else append. -/
def Dict.insert {α : Type} : Dict α → String → α → Dict α
  | [], n, v => [(n, v)]
  | (k, w) :: d, n, v => if k = n then (k, v) :: d else (k, w) :: Dict.insert d n v

/-- Python `d.pop(n)`: remove the entry and return its value; `none` models
the `KeyError` raised for an absent key. -/
def Dict.pop {α : Type} : Dict α → String → Option (α × Dict α)
  | [], _ => none
  | (k, v) :: d, n =>
    if k = n then some (v, d)
    else match Dict.pop d n with
      | none => none
      | some (w, d₂) => some (w, (k, v) :: d₂)

def Dict.keys {α : Type} : Dict α → List String
  | [] => []
  | (k, _) :: d => k :: Dict.keys d

def Dict.contains {α : Type} (d : Dict α) (n : String) : Bool := (d.get? n).isSome

/-- Objects a stage body may yield to the dispatcher: the `stash` and `pop`
command classes, or any other object (carried as an identifying token),
which `dispatch` rejects with a `TypeError`. -/
inductive Yielded (T : Type) where
  | stash (name : String) (tensor : Option T)
  | pop (name : String)
  | other (obj : String)

/-- A generator instance: either already finished with an output, or
suspended at a `yield`, resuming with the value the dispatcher sends back
(`None` after `next`, the popped tensor after `send`). -/
inductive Gen (T B : Type) where
  | ret (output : B)
  | yield (op : Yielded T) (k : Option T → Gen T B)

/-- What calling the underlying module returns: a plain output (the body
never yields) or a generator. -/
inductive ModuleResult (T B : Type) where
  | plain (output : B)
  | gen (g : Gen T B)

/-- The five invocation-fatal protocol errors.  `incompleteStash` and
`incompletePop` carry the full list of offending names, as the source
comma-joined `RuntimeError` message does. -/
inductive SkipError where
  | protocolViolation (obj : String)
  | undeclaredStashable (name : String)
  | undeclaredPoppable (name : String)
  | missingPop (name : String)
  | incompleteStash (names : List String)
  | incompletePop (names : List String)
deriving DecidableEq

/-- A `Skippable` instance: class-level declared name sets (frozensets in
the source, hence duplicate-free) and the per-instance namespace mapping. -/
structure Skippable (N : Type) where
  stashable_names : List String
  poppable_names : List String
  namespaces : Dict N

/-- `Skippable.__init__`: the namespace mapping starts empty. -/
def Skippable.init {N : Type} (stash : List String) (pop : List String) :
    Skippable N :=
  { stashable_names := stash, poppable_names := pop, namespaces := [] }

/-- `Skippable.namespaced`: `(self.namespaces.get(name), name)`; an
un-isolated name gets namespace `none`. -/
def Skippable.namespaced {N : Type} (self : Skippable N) (name : String) :
    Option N × String :=
  (self.namespaces.get? name, name)

/-- `Skippable.stashable`: namespaced stashable names, in declaration order. -/
def Skippable.stashable {N : Type} (self : Skippable N) :
    List (Option N × String) :=
  self.stashable_names.map self.namespaced

/-- `Skippable.poppable`: namespaced poppable names, in declaration order. -/
def Skippable.poppable {N : Type} (self : Skippable N) :
    List (Option N × String) :=
  self.poppable_names.map self.namespaced

/-- `Skippable.isolate`: assign `ns` to every name in `set(only)`, or to
`stashable_names | poppable_names` when `only` is omitted.  Set iteration is
modelled by list order; duplicates are harmless since every assignment
writes the same namespace. -/
def Skippable.isolate {N : Type} (self : Skippable N) (ns : N)
    (only : Option (List String)) : Skippable N :=
  let names : List String :=
    match only with
    | none => self.stashable_names ++ self.poppable_names
    | some o => o
  { self with namespaces := names.foldl (fun d n => d.insert n ns) self.namespaces }

/-- The loop of `Skippable.dispatch` over a started generator: handle each
yielded command through the supplied handler callbacks (closure state `σ`
made explicit) and resume, until `StopIteration` carries the output.  A
yielded object that is neither command raises `TypeError`. -/
def runGen {T B σ : Type}
    (handleStash : σ → String → Option T → Except SkipError σ)
    (handlePop : σ → String → Except SkipError (Option T × σ)) :
    σ → Gen T B → Except SkipError (B × σ)
  | s, .ret o => .ok (o, s)
  | s, .yield (.stash n t) k =>
    match handleStash s n t with
    | .error e => .error e
    | .ok s₂ => runGen handleStash handlePop s₂ (k none)
  | s, .yield (.pop n) k =>
    match handlePop s n with
    | .error e => .error e
    | .ok (t, s₂) => runGen handleStash handlePop s₂ (k t)
  | _, .yield (.other obj) _ => .error (.protocolViolation obj)

/-- `Skippable.dispatch`: call the module on the input; a non-generator
result is returned unchanged, a generator is driven by `runGen`. -/
def dispatch {T B σ : Type} (module : B → ModuleResult T B) (input : B)
    (handleStash : σ → String → Option T → Except SkipError σ)
    (handlePop : σ → String → Except SkipError (Option T × σ))
    (s : σ) : Except SkipError (B × σ) :=
  match module input with
  | .plain output => .ok (output, s)
  | .gen g => runGen handleStash handlePop s g

/-- The invocation-local closure state of `Skippable.forward`:
`skips_stashed` and `skips_to_pop`. -/
structure FwdState (T : Type) where
  skips_stashed : Dict (Option T)
  skips_to_pop : Dict (Option T)

/-- `handle_stash` inside `Skippable.forward`: reject an undeclared name,
else record (overwriting) the value. -/
def handle_stash {T N : Type} (self : Skippable N) (s : FwdState T)
    (name : String) (tensor : Option T) : Except SkipError (FwdState T) :=
  if name ∉ self.stashable_names then .error (.undeclaredStashable name)
  else .ok { s with skips_stashed := s.skips_stashed.insert name tensor }

/-- `handle_pop` inside `Skippable.forward`: reject an undeclared name, else
remove and return the pending value; an already-consumed name raises
`KeyError`, modelled as `missingPop`. -/
def handle_pop {T N : Type} (self : Skippable N) (s : FwdState T)
    (name : String) : Except SkipError (Option T × FwdState T) :=
  if name ∉ self.poppable_names then .error (.undeclaredPoppable name)
  else
    match s.skips_to_pop.pop name with
    | none => .error (.missingPop name)
    | some (t, rest) => .ok (t, { s with skips_to_pop := rest })

/-- The preload loop of `Skippable.forward`: `skips_to_pop[name] =
skip_tracker.load(batch, ns, name)` for each namespaced poppable name. -/
def preload {T N : Type} (self : Skippable N)
    (load : Option N × String → Option T) : Dict (Option T) :=
  self.poppable.foldl (fun d p => d.insert p.2 (load p)) []

/-- The fresh invocation-local state at the start of `Skippable.forward`. -/
def initState {T N : Type} (self : Skippable N)
    (load : Option N × String → Option T) : FwdState T :=
  { skips_stashed := [], skips_to_pop := preload self load }

/-- One `skip_tracker.save(batch, ns, name, tensor)` call. -/
abbrev SaveCall (T N : Type) := (Option N × String) × Option T

/-- The tail of `Skippable.forward` after the dispatcher returned: the two
completeness checks, then the save loop.  `skips_stashed[name]` cannot miss
once `not_stashed` is empty, so the total lookup defaults are unreachable. -/
def finalize {T B N : Type} (self : Skippable N) (output : B)
    (s : FwdState T) : Except SkipError B × List (SaveCall T N) :=
  let not_stashed := self.stashable_names.filter fun n => ! s.skips_stashed.contains n
  let not_popped := s.skips_to_pop.keys
  if not_stashed ≠ [] then (.error (.incompleteStash not_stashed), [])
  else if not_popped ≠ [] then (.error (.incompletePop not_popped), [])
  else
    (.ok output,
     self.stashable.map fun p => (p, (s.skips_stashed.get? p.2).getD none))

/-- `Skippable.forward`: load pending pops from the tracker, dispatch the
module with the two handlers, check completeness, save stashed tensors.
Returns the outcome paired with the `save` calls performed (none when the
invocation aborts, since every error propagates before the save loop). -/
def forward {T B N : Type} (self : Skippable N)
    (load : Option N × String → Option T)
    (module : B → ModuleResult T B) (input : B) :
    Except SkipError B × List (SaveCall T N) :=
  match dispatch module input (handle_stash self) (handle_pop self)
      (initState self load) with
  | .error e => (.error e, [])
  | .ok (output, s) => finalize self output s

/-! ### Dictionary lemmas -/

theorem Dict.get?_eq_none {α : Type} (d : Dict α) (n : String) :
    Dict.get? d n = none ↔ n ∉ Dict.keys d := by
  induction d with
  | nil => simp [Dict.get?, Dict.keys]
  | cons p d ih =>
    obtain ⟨k, v⟩ := p
    by_cases h : k = n
    · subst h
      simp [Dict.get?, Dict.keys]
    · have hnk : ¬ n = k := fun e => h e.symm
      simp [Dict.get?, Dict.keys, h, ih, hnk]

theorem Dict.get?_insert_self {α : Type} (d : Dict α) (n : String) (v : α) :
    Dict.get? (Dict.insert d n v) n = some v := by
  induction d with
  | nil => simp [Dict.insert, Dict.get?]
  | cons p d ih =>
    obtain ⟨k, w⟩ := p
    by_cases h : k = n
    · subst h
      simp [Dict.insert, Dict.get?]
    · simp [Dict.insert, Dict.get?, h, ih]

theorem Dict.get?_insert_ne {α : Type} (d : Dict α) (n m : String) (v : α)
    (h : m ≠ n) : Dict.get? (Dict.insert d n v) m = Dict.get? d m := by
  have hnm : ¬ n = m := fun e => h e.symm
  induction d with
  | nil => simp [Dict.insert, Dict.get?, hnm]
  | cons p d ih =>
    obtain ⟨k, w⟩ := p
    by_cases hk : k = n
    · subst hk
      simp [Dict.insert, Dict.get?, hnm]
    · by_cases hm : k = m <;> simp [Dict.insert, Dict.get?, h, hk, hm, ih]

theorem Dict.keys_insert_of_mem {α : Type} (d : Dict α) (n : String) (v : α)
    (h : n ∈ Dict.keys d) : Dict.keys (Dict.insert d n v) = Dict.keys d := by
  induction d with
  | nil => simp [Dict.keys] at h
  | cons p d ih =>
    obtain ⟨k, w⟩ := p
    by_cases hk : k = n
    · simp [Dict.insert, hk, Dict.keys]
    · simp only [Dict.keys, List.mem_cons] at h
      rcases h with h | h
      · exact absurd h.symm hk
      · simp [Dict.insert, Dict.keys, hk, ih h]

theorem Dict.keys_insert_of_not_mem {α : Type} (d : Dict α) (n : String)
    (v : α) (h : n ∉ Dict.keys d) :
    Dict.keys (Dict.insert d n v) = Dict.keys d ++ [n] := by
  induction d with
  | nil => simp [Dict.insert, Dict.keys]
  | cons p d ih =>
    obtain ⟨k, w⟩ := p
    simp only [Dict.keys, List.mem_cons, not_or] at h
    have hk : ¬ k = n := fun e => h.1 e.symm
    simp [Dict.insert, Dict.keys, hk, ih h.2]

theorem Dict.mem_keys_insert {α : Type} (d : Dict α) (n m : String) (v : α) :
    m ∈ Dict.keys (Dict.insert d n v) ↔ m = n ∨ m ∈ Dict.keys d := by
  by_cases h : n ∈ Dict.keys d
  · rw [Dict.keys_insert_of_mem d n v h]
    constructor
    · exact Or.inr
    · rintro (rfl | hm)
      · exact h
      · exact hm
  · rw [Dict.keys_insert_of_not_mem d n v h]
    simp [or_comm]

theorem Dict.keys_insert_nodup {α : Type} (d : Dict α) (n : String) (v : α)
    (h : (Dict.keys d).Nodup) : (Dict.keys (Dict.insert d n v)).Nodup := by
  by_cases hm : n ∈ Dict.keys d
  · rwa [Dict.keys_insert_of_mem d n v hm]
  · rw [Dict.keys_insert_of_not_mem d n v hm]
    refine List.Nodup.append h (List.nodup_singleton n) ?_
    intro a ha hb
    exact hm ((List.mem_singleton.mp hb) ▸ ha)

theorem Dict.pop_eq_none {α : Type} (d : Dict α) (n : String) :
    Dict.pop d n = none ↔ n ∉ Dict.keys d := by
  induction d with
  | nil => simp [Dict.pop, Dict.keys]
  | cons p d ih =>
    obtain ⟨k, v⟩ := p
    by_cases h : k = n
    · subst h
      simp [Dict.pop, Dict.keys]
    · simp only [Dict.pop, if_neg h, Dict.keys, List.mem_cons, not_or]
      cases hd : Dict.pop d n with
      | none =>
        have hnk : ¬ n = k := fun e => h e.symm
        simp [hd, hnk, ih.mp hd]
      | some q =>
        have hn : n ∈ Dict.keys d := by
          by_contra hc
          rw [ih.mpr hc] at hd
          exact Option.noConfusion hd
        obtain ⟨w, d₂⟩ := q
        simp [hd, hn]

theorem Dict.pop_get?_eq_none {α : Type} (d : Dict α) (n : String)
    (v : α) (rest : Dict α) (hnd : (Dict.keys d).Nodup)
    (h : Dict.pop d n = some (v, rest)) : Dict.get? rest n = none := by
  induction d generalizing rest with
  | nil => simp [Dict.pop] at h
  | cons p d ih =>
    obtain ⟨k, w⟩ := p
    simp only [Dict.keys, List.nodup_cons] at hnd
    by_cases hk : k = n
    · subst hk
      simp [Dict.pop] at h
      rw [← h.2, Dict.get?_eq_none]
      exact hnd.1
    · simp only [Dict.pop, if_neg hk] at h
      cases hd : Dict.pop d n with
      | none => simp [hd] at h
      | some q =>
        obtain ⟨w₂, d₂⟩ := q
        simp only [hd, Option.some.injEq, Prod.mk.injEq] at h
        obtain ⟨rfl, hrest⟩ := h
        rw [← hrest]
        simp [Dict.get?, hk, ih d₂ hnd.2 hd]

/-! ### Fold-insert lemmas for the preload loop -/

theorem Dict.keys_foldl_insert {α β : Type} (f : β → α) (nm : β → String) :
    ∀ (l : List β) (d : Dict α), (l.map nm).Nodup →
      (∀ p ∈ l, nm p ∉ Dict.keys d) →
      Dict.keys (l.foldl (fun d p => Dict.insert d (nm p) (f p)) d)
        = Dict.keys d ++ l.map nm := by
  intro l
  induction l with
  | nil => simp
  | cons p l ih =>
    intro d hnd hdisj
    simp only [List.map_cons, List.nodup_cons] at hnd
    have hfresh : nm p ∉ Dict.keys d := hdisj p (List.mem_cons_self p l)
    have step : Dict.keys (Dict.insert d (nm p) (f p))
        = Dict.keys d ++ [nm p] :=
      Dict.keys_insert_of_not_mem d (nm p) (f p) hfresh
    simp only [List.foldl_cons]
    rw [ih (Dict.insert d (nm p) (f p)) hnd.2]
    · simp [step]
    · intro q hq
      rw [step]
      simp only [List.mem_append, List.mem_singleton]
      rintro (hm | he)
      · exact hdisj q (List.mem_cons_of_mem p hq) hm
      · exact hnd.1 (he ▸ List.mem_map_of_mem nm hq)

theorem Dict.keys_foldl_insert_nodup {α β : Type} (f : β → α)
    (nm : β → String) :
    ∀ (l : List β) (d : Dict α), (Dict.keys d).Nodup →
      (Dict.keys (l.foldl (fun d p => Dict.insert d (nm p) (f p)) d)).Nodup := by
  intro l
  induction l with
  | nil => intro d hnd; simpa using hnd
  | cons p l ih =>
    intro d hnd
    exact ih (Dict.insert d (nm p) (f p))
      (Dict.keys_insert_nodup d (nm p) (f p) hnd)

theorem Dict.get?_foldl_insert_eq_none {α β : Type} (f : β → α)
    (nm : β → String) :
    ∀ (l : List β) (d : Dict α) (n : String),
      Dict.get? (l.foldl (fun d p => Dict.insert d (nm p) (f p)) d) n = none
        ↔ Dict.get? d n = none ∧ n ∉ l.map nm := by
  intro l
  induction l with
  | nil => simp
  | cons p l ih =>
    intro d n
    simp only [List.foldl_cons, List.map_cons, List.mem_cons]
    rw [ih]
    by_cases h : n = nm p
    · subst h
      simp [Dict.get?_insert_self]
    · simp [Dict.get?_insert_ne d (nm p) n (f p) h, h]

theorem Dict.get?_foldl_insert_const {α : Type} (v : α) :
    ∀ (l : List String) (d : Dict α) (n : String),
      Dict.get? (l.foldl (fun d m => Dict.insert d m v) d) n
        = if n ∈ l then some v else Dict.get? d n := by
  intro l
  induction l with
  | nil => simp
  | cons m l ih =>
    intro d n
    simp only [List.foldl_cons]
    rw [ih]
    by_cases h : n ∈ l
    · simp [h]
    · by_cases he : n = m
      · subst he
        simp [h, Dict.get?_insert_self]
      · simp [List.mem_cons, h, he, Dict.get?_insert_ne d m n v he]

/-! ### Lemmas about the embedded protocol pieces -/

theorem Skippable.snd_comp_namespaced {N : Type} (self : Skippable N) :
    (Prod.snd ∘ self.namespaced) = id := by
  funext n
  rfl

theorem Skippable.stashable_map_snd {N : Type} (self : Skippable N) :
    self.stashable.map Prod.snd = self.stashable_names := by
  simp [Skippable.stashable, List.map_map, Skippable.snd_comp_namespaced]

theorem Skippable.poppable_map_snd {N : Type} (self : Skippable N) :
    self.poppable.map Prod.snd = self.poppable_names := by
  simp [Skippable.poppable, List.map_map, Skippable.snd_comp_namespaced]

theorem preload_keys_nodup {T N : Type} (self : Skippable N)
    (load : Option N × String → Option T) :
    (Dict.keys (preload self load)).Nodup :=
  Dict.keys_foldl_insert_nodup load Prod.snd self.poppable []
    (by simp [Dict.keys])

theorem preload_get?_eq_none {T N : Type} (self : Skippable N)
    (load : Option N × String → Option T) (n : String) :
    Dict.get? (preload self load) n = none ↔ n ∉ self.poppable_names := by
  have h := Dict.get?_foldl_insert_eq_none load Prod.snd self.poppable [] n
  rw [Skippable.poppable_map_snd] at h
  simpa [preload, Dict.get?] using h

theorem preload_keys {T N : Type} (self : Skippable N)
    (load : Option N × String → Option T)
    (hnd : self.poppable_names.Nodup) :
    Dict.keys (preload self load) = self.poppable_names := by
  have h := Dict.keys_foldl_insert load Prod.snd self.poppable []
    (by rwa [Skippable.poppable_map_snd]) (by simp [Dict.keys])
  rw [Skippable.poppable_map_snd] at h
  simpa [preload, Dict.keys] using h

/-! ### Claim theorems -/

/-- C10: for a declared name never assigned a namespace via `isolate`,
`namespaced` returns `(none, name)`; the default namespace is literally the
absence of a token, identical across instances (a freshly constructed
instance has an empty mapping), so two un-isolated instances route through
the same `(none, name)` key. -/
theorem namespaced_default_none {N : Type} (inst₁ inst₂ : Skippable N)
    (n : String) (h₁ : Dict.get? inst₁.namespaces n = none)
    (h₂ : Dict.get? inst₂.namespaces n = none) :
    inst₁.namespaced n = (none, n) ∧ inst₂.namespaced n = (none, n) ∧
    inst₁.namespaced n = inst₂.namespaced n ∧
    (∀ st pp : List String,
      (Skippable.init (N := N) st pp).namespaced n = (none, n)) := by
  refine ⟨?_, ?_, ?_, ?_⟩ <;>
    simp [Skippable.namespaced, Skippable.init, Dict.get?, h₁, h₂]

/-- Witness for C10 at two concrete un-isolated instances sharing name a. -/
theorem namespaced_default_none_witness :
    (Skippable.init (N := Nat) ["a"] []).namespaced "a" = (none, "a") ∧
    (Skippable.init (N := Nat) [] ["a"]).namespaced "a" = (none, "a") := by
  have h := namespaced_default_none (N := Nat)
    (Skippable.init ["a"] []) (Skippable.init [] ["a"]) "a" rfl rfl
  exact ⟨h.1, h.2.1⟩

/-- C9: `isolate ns only` assigns `ns` to exactly the names in `only` (or
to every declared name when `only` is omitted) and leaves the namespace
mapping of every other name unchanged; since this holds for an arbitrary
prior instance state, a later `isolate` call simply overwrites the prior
assignment for the names it covers. -/
theorem isolate_assigns_exactly {N : Type} (self : Skippable N) (ns : N)
    (n : String) :
    (∀ names : List String,
      (n ∈ names →
        Dict.get? (self.isolate ns (some names)).namespaces n = some ns) ∧
      (n ∉ names →
        Dict.get? (self.isolate ns (some names)).namespaces n
          = Dict.get? self.namespaces n)) ∧
    ((n ∈ self.stashable_names ∨ n ∈ self.poppable_names) →
      Dict.get? (self.isolate ns none).namespaces n = some ns) ∧
    (n ∉ self.stashable_names → n ∉ self.poppable_names →
      Dict.get? (self.isolate ns none).namespaces n
        = Dict.get? self.namespaces n) := by
  refine ⟨fun names => ⟨fun hm => ?_, fun hm => ?_⟩, fun hm => ?_,
    fun h₁ h₂ => ?_⟩ <;>
      simp only [Skippable.isolate] <;>
      rw [Dict.get?_foldl_insert_const ns _ self.namespaces n]
  · simp [hm]
  · simp [hm]
  · simp only [List.mem_append, if_pos hm]
  · simp [h₁, h₂]

/-- Witness for C9: isolating one of two declared names assigns that name
and leaves the other at its default. -/
theorem isolate_assigns_exactly_witness :
    Dict.get? ((Skippable.init (N := Nat) ["a", "b"] []).isolate 7
      (some ["a"])).namespaces "a" = some 7 ∧
    Dict.get? ((Skippable.init (N := Nat) ["a", "b"] []).isolate 7
      (some ["a"])).namespaces "b" = none := by
  constructor
  · exact ((isolate_assigns_exactly (Skippable.init ["a", "b"] []) 7 "a").1
      ["a"]).1 (by simp)
  · have h := ((isolate_assigns_exactly
      (Skippable.init (N := Nat) ["a", "b"] []) 7 "b").1 ["a"]).2 (by simp)
    simpa using h

/-- C5: a stage body that yields an object that is neither a stash nor a
pop command makes the dispatcher fail with `ProtocolViolation`, whatever
the handlers and their state; when such a body is what the module returns,
the whole invocation fails with that error (and performs no save). -/
theorem yield_other_protocol_violation {T B N σ : Type}
    (hs : σ → String → Option T → Except SkipError σ)
    (hp : σ → String → Except SkipError (Option T × σ)) (s : σ)
    (obj : String) (k : Option T → Gen T B) :
    runGen hs hp s (.yield (.other obj) k)
      = .error (.protocolViolation obj) ∧
    (∀ (self : Skippable N) (load : Option N × String → Option T)
      (module : B → ModuleResult T B) (input : B),
      module input = .gen (.yield (.other obj) k) →
      forward self load module input
        = (.error (.protocolViolation obj), [])) := by
  refine ⟨rfl, fun self load module input hgen => ?_⟩
  simp [forward, dispatch, hgen, runGen]

/-- Witness for C5: a body immediately yielding a non-command object. -/
theorem yield_other_protocol_violation_witness :
    forward (T := Nat) (B := Nat) (N := Nat) (Skippable.init [] [])
      (fun _ => none) (fun i => .gen (.yield (.other "obj") fun _ => .ret i))
      3 = (.error (.protocolViolation "obj"), []) := by
  exact (yield_other_protocol_violation (T := Nat) (B := Nat) (N := Nat)
    (σ := FwdState Nat)
    (handle_stash (Skippable.init (N := Nat) [] []))
    (handle_pop (Skippable.init (N := Nat) [] []))
    (initState (Skippable.init (N := Nat) [] []) fun _ => none) "obj"
    (fun _ => .ret 3)).2 (Skippable.init [] [])
    (fun _ => none) (fun i => .gen (.yield (.other "obj") fun _ => .ret i))
    3 rfl

/-- C3: a stash command whose name is not declared stashable, or a pop
command whose name is not declared poppable, makes the dispatcher fail at
that command with the undeclared-name error, from any invocation state;
any dispatcher error aborts the invocation, which returns it with no save
performed. -/
theorem undeclared_name_fails {T B N : Type} (self : Skippable N)
    (s : FwdState T) (n : String) (t : Option T) (k : Option T → Gen T B) :
    (n ∉ self.stashable_names →
      runGen (handle_stash self) (handle_pop self) s (.yield (.stash n t) k)
        = .error (.undeclaredStashable n)) ∧
    (n ∉ self.poppable_names →
      runGen (handle_stash self) (handle_pop self) s (.yield (.pop n) k)
        = .error (.undeclaredPoppable n)) ∧
    (∀ (load : Option N × String → Option T) (module : B → ModuleResult T B)
      (input : B) (e : SkipError),
      dispatch module input (handle_stash self) (handle_pop self)
          (initState self load) = .error e →
      forward self load module input = (.error e, [])) := by
  refine ⟨fun h => ?_, fun h => ?_, fun load module input e h => ?_⟩
  · simp [runGen, handle_stash, h]
  · simp [runGen, handle_pop, h]
  · simp [forward, h]

/-- Witness for C3: stashing the undeclared name b fails. -/
theorem undeclared_name_fails_witness :
    runGen (T := Nat) (B := Nat)
      (handle_stash (Skippable.init (N := Nat) ["a"] []))
      (handle_pop (Skippable.init (N := Nat) ["a"] []))
      (initState (Skippable.init (N := Nat) ["a"] []) fun _ => none)
      (.yield (.stash "b" (some 5)) fun _ => .ret 7)
      = .error (.undeclaredStashable "b") := by
  exact (undeclared_name_fails (T := Nat) (B := Nat) (N := Nat)
    (Skippable.init ["a"] [])
    (initState (Skippable.init ["a"] []) fun _ => none) "b" (some 5)
    (fun _ => .ret 7)).1 (by decide)

/-- C4: a plain (never-suspending) body bypasses all command handling:
`dispatch` returns its value unchanged with the handler state untouched,
for arbitrary handlers (so neither handler can have been invoked); with
non-empty declared names, `forward` on such a body then fails with
`IncompleteStash` naming every stashable name, or else `IncompletePop`
naming every poppable name. -/
theorem plain_body_bypasses_handlers {T B N σ : Type}
    (hs : σ → String → Option T → Except SkipError σ)
    (hp : σ → String → Except SkipError (Option T × σ)) (s : σ)
    (self : Skippable N) (load : Option N × String → Option T)
    (module : B → ModuleResult T B) (input output : B)
    (hplain : module input = .plain output) :
    dispatch module input hs hp s = .ok (output, s) ∧
    (self.stashable_names ≠ [] →
      forward self load module input
        = (.error (.incompleteStash self.stashable_names), [])) ∧
    (self.stashable_names = [] → self.poppable_names ≠ [] →
      self.poppable_names.Nodup →
      forward self load module input
        = (.error (.incompletePop self.poppable_names), [])) := by
  have hdisp : ∀ (s₂ : FwdState T),
      dispatch module input (handle_stash self) (handle_pop self) s₂
        = .ok (output, s₂) := by
    intro s₂
    simp [dispatch, hplain]
  refine ⟨by simp [dispatch, hplain], fun hne => ?_, fun he hpne hnd => ?_⟩
  · have hfilter : self.stashable_names.filter
        (fun n => ! Dict.contains (initState self load).skips_stashed n)
          = self.stashable_names := by
      simp [initState, Dict.contains, Dict.get?]
    simp only [forward, hdisp, finalize, hfilter]
    rw [if_pos (by simpa using hne)]
  · have hfilter : self.stashable_names.filter
        (fun n => ! Dict.contains (initState self load).skips_stashed n)
          = [] := by
      simp [he]
    have hkeys : Dict.keys (initState self load).skips_to_pop
        = self.poppable_names := preload_keys self load hnd
    simp only [forward, hdisp, finalize, hfilter, hkeys]
    rw [if_neg (by simp), if_pos (by simpa using hpne)]

/-- Witness for C4: a plain identity body with one declared stashable and
one declared poppable name fails with IncompleteStash. -/
theorem plain_body_bypasses_handlers_witness :
    dispatch (T := Nat) (B := Nat) (fun i => .plain i) 3
      (handle_stash (Skippable.init (N := Nat) ["a"] ["x"]))
      (handle_pop (Skippable.init (N := Nat) ["a"] ["x"]))
      (initState (Skippable.init (N := Nat) ["a"] ["x"]) fun _ => none)
      = .ok (3, initState (Skippable.init (N := Nat) ["a"] ["x"])
          fun _ => none) ∧
    forward (T := Nat) (B := Nat) (N := Nat) (Skippable.init ["a"] ["x"])
      (fun _ => none) (fun i => .plain i) 3
      = (.error (.incompleteStash ["a"]), []) := by
  have h := plain_body_bypasses_handlers (T := Nat) (B := Nat) (N := Nat)
    (handle_stash (Skippable.init (N := Nat) ["a"] ["x"]))
    (handle_pop (Skippable.init (N := Nat) ["a"] ["x"]))
    (initState (Skippable.init (N := Nat) ["a"] ["x"]) fun _ => none)
    (Skippable.init ["a"] ["x"]) (fun _ => none)
    (fun i => .plain i) 3 3 rfl
  exact ⟨h.1, h.2.1 (by decide)⟩

/-- C6: popping the same declared name twice in one invocation fails with
`MissingPop` on the second attempt: the handler errors on an
already-consumed name, and a body that pops n twice starting from the
freshly pre-loaded state ends in `missingPop n`. -/
theorem double_pop_missing_pop {T B N : Type} (self : Skippable N)
    (load : Option N × String → Option T) (n : String)
    (k : Option T → Option T → Gen T B) (h : n ∈ self.poppable_names) :
    (∀ s : FwdState T, Dict.get? s.skips_to_pop n = none →
      handle_pop self s n = .error (.missingPop n)) ∧
    runGen (handle_stash self) (handle_pop self) (initState self load)
      (.yield (.pop n) fun t => .yield (.pop n) (k t))
      = .error (.missingPop n) := by
  have hmem : ¬ n ∉ self.poppable_names := fun hc => hc h
  constructor
  · intro s hnone
    have hp : Dict.pop s.skips_to_pop n = none :=
      (Dict.pop_eq_none _ n).mpr ((Dict.get?_eq_none _ n).mp hnone)
    simp [handle_pop, hmem, hp]
  · have hne : ¬ Dict.get? (preload self load) n = none := by
      rw [preload_get?_eq_none]
      simp [h]
    obtain ⟨t, rest, hp⟩ : ∃ t rest,
        Dict.pop (preload self load) n = some (t, rest) := by
      cases hq : Dict.pop (preload self load) n with
      | none =>
        exact absurd ((Dict.get?_eq_none _ n).mpr
          ((Dict.pop_eq_none _ n).mp hq)) hne
      | some p =>
        obtain ⟨t, rest⟩ := p
        exact ⟨t, rest, rfl⟩
    have hrest : Dict.get? rest n = none :=
      Dict.pop_get?_eq_none (preload self load) n t rest
        (preload_keys_nodup self load) hp
    have hp₂ : Dict.pop rest n = none :=
      (Dict.pop_eq_none _ n).mpr ((Dict.get?_eq_none _ n).mp hrest)
    simp [runGen, handle_pop, hmem, initState, hp, hp₂]

/-- Witness for C6: popping x twice with a pre-loaded value present. -/
theorem double_pop_missing_pop_witness :
    runGen (T := Nat) (B := Nat)
      (handle_stash (Skippable.init (N := Nat) [] ["x"]))
      (handle_pop (Skippable.init (N := Nat) [] ["x"]))
      (initState (Skippable.init (N := Nat) [] ["x"]) fun _ => some 5)
      (.yield (.pop "x") fun _ => .yield (.pop "x") fun _ => .ret 0)
      = .error (.missingPop "x") := by
  exact (double_pop_missing_pop (T := Nat) (B := Nat) (N := Nat)
    (Skippable.init [] ["x"]) (fun _ => some 5) "x"
    (fun _ _ => .ret 0) (by decide)).2

/-- C7: with a single declared poppable name x and no matching stash in the
tracker (load returns none), popping x injects none into the body as a
legitimate value and the invocation completes successfully, provided x is
consumed exactly once. -/
theorem pop_absent_injects_none {T B N : Type} (self : Skippable N)
    (load : Option N × String → Option T) (x : String) (out : B)
    (k : Option T → Gen T B) (module : B → ModuleResult T B) (input : B)
    (hstash : self.stashable_names = [])
    (hpop : self.poppable_names = [x])
    (hload : load (self.namespaced x) = none)
    (hgen : module input = .gen (.yield (.pop x) k))
    (hk : k none = .ret out) :
    forward self load module input = (.ok out, []) := by
  have hload₂ : load (Dict.get? self.namespaces x, x) = none := hload
  have hpre : preload self load = [(x, none)] := by
    simp [preload, Skippable.poppable, hpop, Skippable.namespaced, hload₂,
      Dict.insert]
  simp [forward, dispatch, hgen, runGen, handle_pop, initState, hpre, hpop,
    Dict.pop, hk, finalize, hstash, Skippable.stashable, Dict.keys]

/-- Witness for C7: popping an absent skip yields none and succeeds. -/
theorem pop_absent_injects_none_witness :
    forward (T := Nat) (B := Nat) (N := Nat) (Skippable.init [] ["x"])
      (fun _ => none) (fun _ => .gen (.yield (.pop "x") fun _ => .ret 4)) 3
      = (.ok 4, []) := by
  exact pop_absent_injects_none (T := Nat) (B := Nat) (N := Nat)
    (Skippable.init [] ["x"]) (fun _ => none) "x" 4 (fun _ => .ret 4)
    (fun _ => .gen (.yield (.pop "x") fun _ => .ret 4)) 3
    rfl rfl rfl rfl rfl

/-- C8: re-stashing the same declared name within one invocation replaces
the prior value without error (the handler overwrites and never fails on a
declared name), and the tracker receives only the last-written value. -/
theorem restash_last_write_wins {T B N : Type} (self : Skippable N)
    (load : Option N × String → Option T) (a : String) (v₁ v₂ : Option T)
    (out : B) (module : B → ModuleResult T B) (input : B)
    (hstash : self.stashable_names = [a])
    (hpop : self.poppable_names = [])
    (hgen : module input = .gen (.yield (.stash a v₁) fun _ =>
      .yield (.stash a v₂) fun _ => .ret out)) :
    (∀ (s : FwdState T) (m : String) (t : Option T),
      m ∈ self.stashable_names →
      handle_stash self s m t
        = .ok { s with skips_stashed := Dict.insert s.skips_stashed m t } ∧
      Dict.get? (Dict.insert s.skips_stashed m t) m = some t) ∧
    forward self load module input = (.ok out, [(self.namespaced a, v₂)]) := by
  constructor
  · intro s m t hm
    have hmem : ¬ m ∉ self.stashable_names := fun hc => hc hm
    exact ⟨by simp [handle_stash, hmem], Dict.get?_insert_self _ m t⟩
  · have hpre : preload self load = [] := by
      simp [preload, Skippable.poppable, hpop]
    simp [forward, dispatch, hgen, runGen, handle_stash, hstash, initState,
      hpre, Dict.insert, finalize, Dict.contains, Dict.get?, Dict.keys,
      Skippable.stashable, Skippable.namespaced]

/-- Witness for C8: stashing a twice persists only the second value. -/
theorem restash_last_write_wins_witness :
    forward (T := Nat) (B := Nat) (N := Nat) (Skippable.init ["a"] [])
      (fun _ => none)
      (fun i => .gen (.yield (.stash "a" (some 1)) fun _ =>
        .yield (.stash "a" (some 2)) fun _ => .ret i)) 3
      = (.ok 3, [((none, "a"), some 2)]) := by
  exact (restash_last_write_wins (T := Nat) (B := Nat) (N := Nat)
    (Skippable.init ["a"] []) (fun _ => none) "a" (some 1) (some 2) 3
    (fun i => .gen (.yield (.stash "a" (some 1)) fun _ =>
      .yield (.stash "a" (some 2)) fun _ => .ret i)) 3
    rfl rfl rfl).2

/-- C1: once the dispatcher has returned the body output with final handler
state s, forward fails with `IncompleteStash` listing exactly the declared
stashable names never stashed whenever there are any; otherwise it fails
with `IncompletePop` listing exactly the pre-loaded names never consumed
whenever there are any; and whenever forward returns without error, every
declared stashable name was stashed and every pre-loaded pop consumed. -/
theorem forward_completeness_checks {T B N : Type} (self : Skippable N)
    (load : Option N × String → Option T) (module : B → ModuleResult T B)
    (input output : B) (s : FwdState T)
    (hdisp : dispatch module input (handle_stash self) (handle_pop self)
        (initState self load) = .ok (output, s)) :
    (∀ m, m ∈ self.stashable_names.filter
        (fun n => ! Dict.contains s.skips_stashed n)
      ↔ m ∈ self.stashable_names ∧ Dict.get? s.skips_stashed m = none) ∧
    (self.stashable_names.filter (fun n => ! Dict.contains s.skips_stashed n)
        ≠ [] →
      forward self load module input
        = (.error (.incompleteStash (self.stashable_names.filter
            (fun n => ! Dict.contains s.skips_stashed n))), [])) ∧
    (self.stashable_names.filter (fun n => ! Dict.contains s.skips_stashed n)
        = [] → Dict.keys s.skips_to_pop ≠ [] →
      forward self load module input
        = (.error (.incompletePop (Dict.keys s.skips_to_pop)), [])) ∧
    (∀ r saves, forward self load module input = (.ok r, saves) →
      (∀ m ∈ self.stashable_names, ¬ Dict.get? s.skips_stashed m = none) ∧
      Dict.keys s.skips_to_pop = []) := by
  have hmem : ∀ m, m ∈ self.stashable_names.filter
      (fun n => ! Dict.contains s.skips_stashed n)
    ↔ m ∈ self.stashable_names ∧ Dict.get? s.skips_stashed m = none := by
    intro m
    cases hg : Dict.get? s.skips_stashed m <;>
      simp [List.mem_filter, Dict.contains, hg]
  refine ⟨hmem, fun h => by simp [forward, hdisp, finalize, h],
    fun h₁ h₂ => by simp [forward, hdisp, finalize, h₁, h₂], ?_⟩
  intro r saves hok
  by_cases h₁ : self.stashable_names.filter
      (fun n => ! Dict.contains s.skips_stashed n) = []
  · by_cases h₂ : Dict.keys s.skips_to_pop = []
    · refine ⟨fun m hm hg => ?_, h₂⟩
      have hin : m ∈ self.stashable_names.filter
          (fun n => ! Dict.contains s.skips_stashed n) :=
        (hmem m).mpr ⟨hm, hg⟩
      rw [h₁] at hin
      exact absurd hin (List.not_mem_nil m)
    · simp [forward, hdisp, finalize, h₁, h₂] at hok
  · simp [forward, hdisp, finalize, h₁] at hok

/-- Witness for C1: with stashable names a and b and a body that stashes
only b, forward fails with IncompleteStash naming exactly a. -/
theorem forward_completeness_checks_witness :
    forward (T := Nat) (B := Nat) (N := Nat) (Skippable.init ["a", "b"] [])
      (fun _ => none)
      (fun i => .gen (.yield (.stash "b" (some 9)) fun _ => .ret i)) 3
      = (.error (.incompleteStash ["a"]), []) := by
  exact (forward_completeness_checks (T := Nat) (B := Nat) (N := Nat)
    (Skippable.init ["a", "b"] []) (fun _ => none)
    (fun i => .gen (.yield (.stash "b" (some 9)) fun _ => .ret i)) 3 3
    ⟨[("b", some 9)], []⟩ rfl).2.1 (by decide)

/-- C2: tracker saves happen only after the body completed and both
completeness checks passed: an aborted invocation performs no save at all,
and a successful one performs exactly one save per declared stashable name
(so at most once per name when the declared set is duplicate-free). -/
theorem saves_only_on_success {T B N : Type} (self : Skippable N)
    (load : Option N × String → Option T) (module : B → ModuleResult T B)
    (input : B) :
    (∀ e (saves : List (SaveCall T N)),
      forward self load module input = (.error e, saves) → saves = []) ∧
    (∀ out (saves : List (SaveCall T N)),
      forward self load module input = (.ok out, saves) →
      saves.map (fun p => p.1.2) = self.stashable_names ∧
      (self.stashable_names.Nodup →
        ∀ m, (saves.map (fun p => p.1.2)).count m ≤ 1)) := by
  have hsnd : (fun q : Option N × String => q.2) = Prod.snd := rfl
  cases hdisp : dispatch module input (handle_stash self) (handle_pop self)
      (initState self load) with
  | error e =>
    constructor
    · intro e₂ saves hok
      simp [forward, hdisp] at hok
      exact hok.2
    · intro out saves hok
      simp [forward, hdisp] at hok
  | ok p =>
    obtain ⟨output, s⟩ := p
    by_cases h₁ : self.stashable_names.filter
        (fun n => ! Dict.contains s.skips_stashed n) = []
    · by_cases h₂ : Dict.keys s.skips_to_pop = []
      · constructor
        · intro e saves hok
          simp [forward, hdisp, finalize, h₁, h₂] at hok
        · intro out saves hok
          simp only [forward, hdisp, finalize, h₁, h₂] at hok
          simp at hok
          obtain ⟨-, hsaves⟩ := hok
          have hmap : saves.map (fun p => p.1.2) = self.stashable_names := by
            rw [← hsaves, List.map_map]
            have hcomp : ((fun p : SaveCall T N => p.1.2) ∘
                (fun q : Option N × String =>
                  (q, (Dict.get? s.skips_stashed q.2).getD none)))
              = Prod.snd := rfl
            rw [hcomp, Skippable.stashable_map_snd]
          refine ⟨hmap, fun hnd m => ?_⟩
          rw [hmap]
          exact List.nodup_iff_count_le_one.mp hnd m
      · constructor
        · intro e saves hok
          simp [forward, hdisp, finalize, h₁, h₂] at hok
          exact hok.2
        · intro out saves hok
          simp [forward, hdisp, finalize, h₁, h₂] at hok
    · constructor
      · intro e saves hok
        simp [forward, hdisp, finalize, h₁] at hok
        exact hok.2
      · intro out saves hok
        simp [forward, hdisp, finalize, h₁] at hok

/-- Witness for C2: one declared stashable name, stashed once, is saved
exactly once with its value. -/
theorem saves_only_on_success_witness :
    ([((none, "a"), some 7)] : List (SaveCall Nat Nat)).map (fun p => p.1.2)
      = ["a"] := by
  exact ((saves_only_on_success (T := Nat) (B := Nat) (N := Nat)
    (Skippable.init ["a"] []) (fun _ => none)
    (fun i => .gen (.yield (.stash "a" (some 7)) fun _ => .ret i)) 3).2
    3 [((none, "a"), some 7)] rfl).1

end SkipEmb
